import Mathlib

/-!
Verification development for the ChessCoach MCTS core
(src/cpp/ChessCoach/SelfPlay.cpp and friends).

Floating-point values in the C++ source are modelled as rationals (`Rat`);
pointers to `Node` objects are modelled by inductive trees (`NTree`) whose
children live in an association list ordered the way the `std::map<Move, Node*>`
iterates (ascending move key, unique keys).  `Move` is modelled as `Nat`.
The C++ `std::optional<int>` in `TerminalValue` is `Option Int`.
NaN returns (a value that is not yet available) are modelled by `Option Rat`
being `none`.
-/

/-- Game value constants, from Game.h (CHESSCOACH_VALUE_WIN / DRAW / LOSS). -/
def chesscoachValueWin : Rat := 1

def chesscoachValueDraw : Rat := 1 / 2

def chesscoachValueLoss : Rat := 0

/-- Modelled from the spec: Game.h's FlipValue(value), flipping a value from one
player's perspective to the other is 1 - v (spec section 3, Color). -/
def flipValue (v : Rat) : Rat := 1 - v

/-- Modelled from the spec: Game.h's FlipValue(color, value): flip only when the
color argument is BLACK (the XOR of two differing colors). White = false,
Black = true. -/
def flipValueColor (c : Bool) (v : Rat) : Rat := if c then 1 - v else v

/-! TerminalValue (SelfPlay.cpp lines 16-126). The C++ class stores
`std::optional<int> _value`; we use `Option Int` directly. -/

/-- TerminalValue::NonTerminal. -/
def TerminalValue.nonTerminal : Option Int := none

/-- TerminalValue::Draw (internally 0). -/
def TerminalValue.drawValue : Int := 0

/-- TerminalValue::MateIn(n): mate in n fullmoves, stored as +n. -/
def TerminalValue.mateIn (n : Int) : Int := n

/-- TerminalValue::OpponentMateIn(n): opponent mates in n fullmoves, stored as -n. -/
def TerminalValue.opponentMateIn (n : Int) : Int := -n

/-- TerminalValue::IsImmediate: engaged and equal to Draw() or MateIn(1). -/
def TerminalValue.isImmediate (tv : Option Int) : Bool :=
  match tv with
  | none => false
  | some v => v == TerminalValue.drawValue || v == TerminalValue.mateIn 1

/-- TerminalValue::ImmediateValue: WIN for MateIn(1), otherwise DRAW
(coalescing undetermined/unfinished cases to a draw). -/
def TerminalValue.immediateValue (tv : Option Int) : Rat :=
  if tv == some (TerminalValue.mateIn 1) then chesscoachValueWin
  else chesscoachValueDraw

/-- TerminalValue::IsMateInN: engaged and positive. -/
def TerminalValue.isMateInN (tv : Option Int) : Bool :=
  match tv with
  | none => false
  | some v => v > 0

/-- TerminalValue::IsOpponentMateInN: engaged and negative. -/
def TerminalValue.isOpponentMateInN (tv : Option Int) : Bool :=
  match tv with
  | none => false
  | some v => v < 0

/-- TerminalValue::MateN: max 0 (value) when engaged, else 0. -/
def TerminalValue.mateN (tv : Option Int) : Int :=
  match tv with
  | none => 0
  | some v => max 0 v

/-- TerminalValue::OpponentMateN: max 0 (-value) when engaged, else 0. -/
def TerminalValue.opponentMateN (tv : Option Int) : Int :=
  match tv with
  | none => 0
  | some v => max 0 (-v)

/-- TerminalValue::EitherMateN: the raw value when engaged, else 0. -/
def TerminalValue.eitherMateN (tv : Option Int) : Int :=
  match tv with
  | none => 0
  | some v => v

/-- Node fields (SelfPlay.cpp Node constructor, lines 136-146); `bestChild`
is modelled as the move key of the best child (`none` = nullptr). -/
structure NodeData where
  prior : Rat
  visitCount : Int
  visitingCount : Int
  valueSum : Rat
  terminalValue : Option Int
  expanding : Bool
  bestChild : Option Nat
deriving DecidableEq

/-- Node::Node(prior): zero visits, NonTerminal, no best child. -/
def NodeData.fresh (p : Rat) : NodeData :=
  { prior := p, visitCount := 0, visitingCount := 0, valueSum := 0,
    terminalValue := none, expanding := false, bestChild := none }

/-- Node::Value(): valueSum / visitCount, or LOSS when visitCount <= 0
(first-play urgency). -/
def NodeData.value (d : NodeData) : Rat :=
  if d.visitCount ≤ 0 then chesscoachValueLoss else d.valueSum / (d.visitCount : Rat)

/-- SelfPlayWorker::WorseThan(lhs, rhs) (SelfPlay.cpp lines 1331-1355); `rhs`
is asserted non-null in the source so it is a plain `NodeData` here;
`maxMoves` is Config().SelfPlay.MaxMoves. -/
def worseThan (maxMoves : Int) (lhs : Option NodeData) (rhs : NodeData) : Bool :=
  match lhs with
  | none => true
  | some l =>
    let lhsEitherMateN := TerminalValue.eitherMateN l.terminalValue
    let rhsEitherMateN := TerminalValue.eitherMateN rhs.terminalValue
    if lhsEitherMateN ≠ rhsEitherMateN then
      let lhsShifted := lhsEitherMateN +
        (((if lhsEitherMateN < 0 then 1 else 0) - (if lhsEitherMateN > 0 then 1 else 0)) * 2 * maxMoves)
      let rhsShifted := rhsEitherMateN +
        (((if rhsEitherMateN < 0 then 1 else 0) - (if rhsEitherMateN > 0 then 1 else 0)) * 2 * maxMoves)
      lhsShifted > rhsShifted
    else
      l.visitCount < rhs.visitCount

/-! Search controller time control (SelfPlay.cpp lines 1557-1604). -/

/-- Inputs read by SelfPlayWorker::CheckTimeControl: the search state, the
time control, the configuration constants and the clock reading. White =
false, Black = true for `toPlay`. -/
structure TimeControlInput where
  searching : Bool
  bestChildExists : Bool
  infinite : Bool
  moveTimeMs : Int
  searchTimeMs : Int
  toPlay : Bool
  timeRemainingWhiteMs : Int
  timeRemainingBlackMs : Int
  incrementWhiteMs : Int
  incrementBlackMs : Int
  fractionOfRemaining : Int
  safetyBufferMs : Int
  mctsSimulations : Int
  numSimulations : Int
deriving DecidableEq

def TimeControlInput.timeRemainingMs (inp : TimeControlInput) : Int :=
  if inp.toPlay then inp.timeRemainingBlackMs else inp.timeRemainingWhiteMs

def TimeControlInput.incrementMs (inp : TimeControlInput) : Int :=
  if inp.toPlay then inp.incrementBlackMs else inp.incrementWhiteMs

/-- The game-clock allowance computed by CheckTimeControl's third branch;
C++ int64 division truncates toward zero, hence `Int.tdiv`. -/
def timeAllowedMs (inp : TimeControlInput) : Int :=
  Int.tdiv inp.timeRemainingMs inp.fractionOfRemaining + inp.incrementMs - inp.safetyBufferMs

/-- SelfPlayWorker::CheckTimeControl, returning the new value of
_searchState.searching (the source only ever assigns false to it). -/
def checkTimeControl (inp : TimeControlInput) : Bool :=
  if !inp.bestChildExists then inp.searching
  else if inp.infinite then inp.searching
  else if inp.moveTimeMs > 0 then
    (if inp.searchTimeMs ≥ inp.moveTimeMs then false else inp.searching)
  else if timeAllowedMs inp > 0 then
    (if inp.searchTimeMs ≥ timeAllowedMs inp then false else inp.searching)
  else
    (if inp.mctsSimulations ≥ inp.numSimulations then false else inp.searching)

/-! Draw detection (SelfPlay.cpp lines 508-520) and its Stockfish inputs. -/

/-- SelfPlayGame::IsDrawByNoProgressOrRepetition(plyToSearchRoot), a function
of the StateInfo fields `rule50` and `repetition` of the current position. -/
def isDrawByNoProgressOrRepetition (rule50 repetition plyToSearchRoot : Int) : Bool :=
  rule50 > 99 || (repetition ≠ 0 && repetition < plyToSearchRoot)

/-- Modelled from the spec: Stockfish's StateInfo::repetition for the last
position of a history of Zobrist keys (oldest first) is 0 when no earlier
position has the same key; otherwise it is the ply distance to the closest
earlier occurrence, negated when that earlier occurrence itself repeats
(threefold anywhere). The rule50 window restriction is irrelevant for the
histories considered here. -/
def repetitionStep (acc : List (Nat × Int)) (k : Nat) : List (Nat × Int) :=
  match acc.findIdx? (fun kr => kr.1 = k) with
  | none => (k, 0) :: acc
  | some i =>
    let d : Int := (i : Int) + 1
    match acc.get? i with
    | some (_, r) => (k, if r = 0 then d else -d) :: acc
    | none => (k, 0) :: acc

def repetitionOf (keys : List Nat) : Int :=
  match keys.foldl repetitionStep [] with
  | [] => 0
  | kr :: _ => kr.2

/-! The Working phase of SelfPlayGame::ExpandAndEvaluate (SelfPlay.cpp lines
338-436). The external position abstraction and the prediction cache appear
as explicit inputs; `cacheProbe` is the result TryGetPrediction would deliver
when the cache is probed (`none` = miss). -/

/-- SelfPlayState (SelfPlay.h). `Finished` is unused by the claims here. -/
inductive SelfPlayStateM where
  | working
  | waitingForPrediction
  | finished
deriving DecidableEq

/-- The root node as seen by ExpandAndEvaluate: its terminal-value tag and the
children it creates, an association list (move, prior of the fresh child). -/
structure EENode where
  terminalValue : Option Int
  children : List (Nat × Rat)
deriving DecidableEq

/-- Environment read by the Working phase of ExpandAndEvaluate. -/
structure EEEnv where
  tryHard : Bool
  ply : Int
  searchRootPly : Int
  predictionCacheMaxPly : Int
  cacheProbe : Option (Rat × List (Nat × Rat))
  legalMoves : List Nat
  inCheck : Bool
  rule50 : Int
  repetition : Int
deriving DecidableEq

/-- The Working phase of SelfPlayGame::ExpandAndEvaluate. Returns the updated
root, the returned value (`none` models the NaN return) and the coroutine
state. The incoming state is Working. -/
def expandAndEvaluateWorking (env : EEEnv) (root : EENode) :
    EENode × Option Rat × SelfPlayStateM :=
  if TerminalValue.isImmediate root.terminalValue then
    (root, some (TerminalValue.immediateValue root.terminalValue), .working)
  else
    let hitCached : Option (Rat × List (Nat × Rat)) :=
      if env.tryHard || env.ply ≤ env.predictionCacheMaxPly then env.cacheProbe else none
    match hitCached with
    | some (cachedValue, cachedChildren) =>
      ({ root with children := root.children ++ cachedChildren }, some cachedValue, .working)
    | none =>
      if env.legalMoves.isEmpty then
        let tv : Option Int :=
          some (if env.inCheck then TerminalValue.mateIn 1 else TerminalValue.drawValue)
        ({ root with terminalValue := tv }, some (TerminalValue.immediateValue tv), .working)
      else
        let plyToSearchRoot := env.ply - env.searchRootPly
        if isDrawByNoProgressOrRepetition env.rule50 env.repetition plyToSearchRoot then
          let tv : Option Int := some TerminalValue.drawValue
          ({ root with terminalValue := tv }, some (TerminalValue.immediateValue tv), .working)
        else
          (root, none, .waitingForPrediction)

/-! Branch limiting (SelfPlay.cpp lines 489-506) and the tail of the
WaitingForPrediction phase (lines 467-486). The parallel C++ arrays
moves[]/priors[] are swapped in tandem, so they are modelled as one list of
(move, prior) pairs. -/

/-- Modelled from the spec: Config::MaxBranchMoves (the constant K = 52,
matching PredictionCacheEntry::MaxMoveCount in PredictionCache.h); its
definition site (Config.cpp) is not under src. -/
def maxBranchMoves : Nat := 52

/-- The inner loop of LimitBranchingToBest: scan the remaining entries,
remembering the index of the first entry whose prior is strictly greater than
everything before it (`for j = i+1 .. moveCount-1: if priors[j] > priors[max]
max = j`). `best` is the current maximum with its index `bestIdx`; `curIdx`
is j. Returns (final max index, its entry). -/
def firstMaxFrom (best : Nat × Rat) (bestIdx curIdx : Nat) :
    List (Nat × Rat) → Nat × (Nat × Rat)
  | [] => (bestIdx, best)
  | y :: ys =>
    if y.2 > best.2 then firstMaxFrom y curIdx (curIdx + 1) ys
    else firstMaxFrom best bestIdx (curIdx + 1) ys

/-- The outer loop of LimitBranchingToBest: a partial selection sort running
`k` steps. At each step the first maximal remaining entry is swapped to the
front (when it is not already there, matching `if (max != i) std::swap`).
`l.set (j-1) x` is the other half of the swap. -/
def selectionSortK : Nat → List (Nat × Rat) → List (Nat × Rat)
  | 0, l => l
  | _ + 1, [] => []
  | k + 1, x :: xs =>
    let jm := firstMaxFrom x 0 1 xs
    if jm.1 = 0 then x :: selectionSortK k xs
    else jm.2 :: selectionSortK k (xs.set (jm.1 - 1) x)

/-- SelfPlayGame::LimitBranchingToBest on the joined (move, prior) list; the
source asserts moveCount > Config::MaxBranchMoves and sorts the first K
positions of the full-length arrays. -/
def limitBranchingToBest (entries : List (Nat × Rat)) : List (Nat × Rat) :=
  selectionSortK maxBranchMoves entries

/-- Tail of the WaitingForPrediction phase of ExpandAndEvaluate after the
softmax (SelfPlay.cpp lines 467-486): when a cache store handle is held and
there are more than MaxBranchMoves legal moves, limit to the best K before
storing; the children created are exactly the entries stored. Returns
(children created, entries passed to PredictionCacheChunk::Put or `none`
when no store happens). -/
def expandChildrenAndStore (cacheStoreHeld : Bool) (entries : List (Nat × Rat)) :
    List (Nat × Rat) × Option (List (Nat × Rat)) :=
  if cacheStoreHeld then
    if entries.length > maxBranchMoves then
      let limited := (limitBranchingToBest entries).take maxBranchMoves
      (limited, some limited)
    else
      (entries, some entries)
  else
    (entries, none)

/-! The search tree. A node owns its children through a
`std::map<Move, Node*>`; here a tree with an association list of children
whose order is the map's iteration order (ascending move key, unique keys in
every tree built by the code). -/

inductive NTree where
  | mk (data : NodeData) (children : List (Nat × NTree))

def NTree.data : NTree → NodeData
  | .mk d _ => d

def NTree.children : NTree → List (Nat × NTree)
  | .mk _ cs => cs

/-- Lookup of `children.find(move)` in iteration order. -/
def lookupChild : List (Nat × NTree) → Nat → Option NTree
  | [], _ => none
  | (k, c) :: rest, m => if k = m then some c else lookupChild rest m

/-- Apply `g` to the child stored under move `m` (the first matching entry,
as in a `std::map` where keys are unique). -/
def updateChild : List (Nat × NTree) → Nat → (NTree → NTree) → List (Nat × NTree)
  | [], _, _ => []
  | (k, c) :: rest, m, g =>
    if k = m then (k, g c) :: rest else (k, c) :: updateChild rest m g

/-- Follow a path of moves down the tree. -/
def getNode : NTree → List Nat → Option NTree
  | t, [] => some t
  | t, m :: p =>
    match lookupChild t.children m with
    | none => none
    | some c => getNode c p

/-- Data of the node a path leads to. -/
def getData (t : NTree) (p : List Nat) : Option NodeData :=
  (getNode t p).map NTree.data

/-- Sum of the children's visitCounts, as in the std::transform_reduce
assertion of ApplyMoveWithRootAndHistory. -/
def sumChildrenVC : List (Nat × NTree) → Int
  | [] => 0
  | (_, c) :: rest => c.data.visitCount + sumChildrenVC rest

/-- Apply a data update to every node on a path, root included. -/
def updateAlong (f : NodeData → NodeData) : NTree → List Nat → NTree
  | .mk d cs, [] => .mk (f d) cs
  | .mk d cs, m :: p => .mk (f d) (updateChild cs m (fun c => updateAlong f c p))
termination_by structural _ p => p

/-- The visitingCount increments performed while a search path is selected in
SelfPlayWorker::RunMcts (lines 1026-1047): the root when pushed, then every
selected child, i.e. every node on the path exactly once. -/
def incVisitingAlong (t : NTree) (p : List Nat) : NTree :=
  updateAlong (fun d => { d with visitingCount := d.visitingCount + 1 }) t p

/-- The failed-selection cleanup loop of RunMcts (lines 1036-1042):
`node->visitingCount--` for every node on the search path. -/
def decVisitingAlong (t : NTree) (p : List Nat) : NTree :=
  updateAlong (fun d => { d with visitingCount := d.visitingCount - 1 }) t p

/-- One node's update inside SelfPlayWorker::Backpropagate (lines 1191-1201):
decrement visitingCount, increment visitCount, add the value. -/
def backpropUpdate (v : Rat) (d : NodeData) : NodeData :=
  { d with visitingCount := d.visitingCount - 1,
           visitCount := d.visitCount + 1,
           valueSum := d.valueSum + v }

/-- SelfPlayWorker::Backpropagate on the search path, list form: the search
path is the vector of nodes from root to leaf; each gets `backpropUpdate`
with the current value, which is then flipped (`value = FlipValue(value)`). -/
def backpropagate : List NodeData → Rat → List NodeData
  | [], _ => []
  | d :: rest, v => backpropUpdate v d :: backpropagate rest (flipValue v)

/-- The pre-flip applied in RunMcts (line 1077) before Backpropagate:
`value = FlipValue(Color(game.ToPlay() ^ scratchGame.ToPlay()), value)`. -/
def runMctsBackpropagate (gameToPlay scratchToPlay : Bool) (path : List NodeData)
    (value : Rat) : List NodeData :=
  backpropagate path (flipValueColor (xor gameToPlay scratchToPlay) value)

/-- SelfPlayWorker::Backpropagate acting on the tree: the search path names
nodes of the shared tree, each updated in place. -/
def backpropagateAlong : NTree → List Nat → Rat → NTree
  | .mk d cs, [], v => .mk (backpropUpdate v d) cs
  | .mk d cs, m :: p, v =>
    .mk (backpropUpdate v d) (updateChild cs m (fun c => backpropagateAlong c p (flipValue v)))
termination_by structural _ p _ => p

/-- Child creation at the end of ExpandAndEvaluate
(`root->children[Move(...)] = new Node(prior)`): the node at the path, a
leaf, receives fresh zero-visit children. -/
def expandLeafAt : NTree → List Nat → List (Nat × Rat) → NTree
  | .mk d _, [], ncs => .mk d (ncs.map fun mp => (mp.1, NTree.mk (NodeData.fresh mp.2) []))
  | .mk d cs, m :: p, ncs => .mk d (updateChild cs m (fun c => expandLeafAt c p ncs))
termination_by structural _ p _ => p

/-- SelfPlayGame::ApplyMoveWithRootAndHistory (SelfPlay.cpp lines 318-336):
the chosen child becomes the new root (siblings and the old root are pruned);
a terminal (childless) new root's visitCount resets to 0, otherwise it is
decremented because the node was visited exactly once as a leaf before being
expanded. -/
def applyMoveWithRootAndHistory (t : NTree) (m : Nat) : Option NTree :=
  (lookupChild t.children m).map fun c =>
    match c with
    | .mk d cs =>
      if cs.isEmpty then NTree.mk { d with visitCount := 0 } cs
      else NTree.mk { d with visitCount := d.visitCount - 1 } cs

/-- Set the terminal-value tag of the node a path leads to (the leaf marking
done by ExpandAndEvaluate before BackpropagateMate runs, or by the
MctsTest.MateProving test directly). -/
def setTerminalAt : NTree → List Nat → Option Int → NTree
  | .mk d cs, [], tv => .mk { d with terminalValue := tv } cs
  | .mk d cs, m :: p, tv => .mk d (updateChild cs m (fun c => setTerminalAt c p tv))
termination_by structural _ p _ => p

def NTree.withTerminal : NTree → Option Int → NTree
  | .mk d cs, tv => .mk { d with terminalValue := tv } cs

/-- SelfPlayWorker::FixPrincipleVariation's best-child scan (SelfPlay.cpp
lines 1269-1279): for each child in map order, if the current bestChild is
WorseThan it, it becomes the bestChild. (The principleVariationChanged
bookkeeping lives in the worker's search state, outside the tree.) -/
def fixPrincipleVariation (maxMoves : Int) : NTree → NTree
  | .mk d cs =>
    let d' := cs.foldl
      (fun acc mc =>
        if worseThan maxMoves ((acc.bestChild.bind (lookupChild cs)).map NTree.data) mc.2.data
        then { acc with bestChild := some mc.1 } else acc) d
    .mk d' cs

/-- The all-children check of BackpropagateMate's opponent-mate branch
(SelfPlay.cpp lines 1249-1259): every child's OpponentMateN must be
positive, otherwise the walk stops. -/
def allChildrenOppMate : List (Nat × NTree) → Bool
  | [] => true
  | (_, c) :: rest =>
    (TerminalValue.opponentMateN c.data.terminalValue > 0) && allChildrenOppMate rest

/-- The longest child OpponentMateN. The C++ accumulator starts at INT_MIN;
since the walk only reaches this computation for a parent whose children all
have positive OpponentMateN (and a parent on the search path has at least its
path child), starting from 0 yields the same maximum. -/
def maxOppMateN : List (Nat × NTree) → Int
  | [] => 0
  | (_, c) :: rest => max (TerminalValue.opponentMateN c.data.terminalValue) (maxOppMateN rest)

/-- SelfPlayWorker::BackpropagateMate (SelfPlay.cpp lines 1203-1267) as a
recursion down the search path. The loop walks parents from the leaf toward
the root with an alternating `childIsMate` flag; here each recursive call
returns (updated subtree, walk-continues flag, the childIsMate value the
parent above should use, whether the parent above must run
FixPrincipleVariation because this node just became worse). -/
def bpmAux (maxMoves : Int) : NTree → List Nat → NTree × Bool × Bool × Bool
  | t, [] => (t, true, true, false)
  | .mk d cs, m :: p =>
    match lookupChild cs m with
    | none => (.mk d cs, false, true, false)
    | some c =>
      let r := bpmAux maxMoves c p
      let t1 := NTree.mk d (updateChild cs m (fun _ => r.1))
      let t2 := if r.2.2.2 then fixPrincipleVariation maxMoves t1 else t1
      if !r.2.1 then (t2, false, true, false)
      else if r.2.2.1 then
        let newMateN := TerminalValue.mateN r.1.data.terminalValue
        if !(TerminalValue.isOpponentMateInN t2.data.terminalValue) ||
            newMateN < TerminalValue.opponentMateN t2.data.terminalValue then
          (t2.withTerminal (some (TerminalValue.opponentMateIn newMateN)), true, false, true)
        else
          (t2, false, true, false)
      else
        if allChildrenOppMate t2.children then
          (t2.withTerminal (some (TerminalValue.mateIn (maxOppMateN t2.children + 1))),
            true, true, false)
        else
          (t2, false, true, false)
termination_by structural _ p => p

/-- BackpropagateMate on a search path given by its move list (the searchPath
vector's first entry is the root with MOVE_NONE; the remaining entries are
the moves). At the root there is no grandparent, so a pending
FixPrincipleVariation request is dropped (grandparentIndex >= 0 fails). -/
def backpropagateMate (maxMoves : Int) (t : NTree) (p : List Nat) : NTree :=
  (bpmAux maxMoves t p).1

/-- Leaf with a given prior, as MockExpand creates them. -/
def mkLeafN (p : Rat) : NTree := .mk (NodeData.fresh p) []

/-- The MctsTest.MateProving tree: a root with 3 children, each with 3
children, two branches selectively deepened (MockExpand priors are
1/childCount). -/
def mateProvingTree : NTree :=
  .mk (NodeData.fresh 0) [
    (0, .mk (NodeData.fresh (1/3))
      [(0, mkLeafN (1/3)), (1, mkLeafN (1/3)), (2, mkLeafN (1/3))]),
    (1, .mk (NodeData.fresh (1/3))
      [(0, mkLeafN (1/3)),
       (1, .mk (NodeData.fresh (1/3)) [(0, .mk (NodeData.fresh 1) [(0, mkLeafN 1)])]),
       (2, mkLeafN (1/3))]),
    (2, .mk (NodeData.fresh (1/3))
      [(0, mkLeafN (1/3)), (1, mkLeafN (1/3)),
       (2, .mk (NodeData.fresh (1/3))
         [(0, .mk (NodeData.fresh 1)
           [(0, .mk (NodeData.fresh 1)
             [(0, .mk (NodeData.fresh 1) [(0, mkLeafN 1)])])])])])]

/-- State of the MateProving tree after the first marking ((move0, move0)
becomes MateIn(1)) and its 3-deep propagation. -/
def mateProvingTree1 : NTree :=
  backpropagateMate 512 (setTerminalAt mateProvingTree [0, 0] (some 1)) [0, 0]

/-- After additionally making (move0, move1) a Draw (no propagation in the
test). -/
def mateProvingTree2 : NTree :=
  setTerminalAt mateProvingTree1 [0, 1] (some 0)

/-- After the second marking ((move1,1,0,0) becomes MateIn(1)) and its 5-deep
propagation. -/
def mateProvingTree3 : NTree :=
  backpropagateMate 512 (setTerminalAt mateProvingTree2 [1, 1, 0, 0] (some 1)) [1, 1, 0, 0]

/-- After the third marking ((move2,2,0,0,0,0) becomes MateIn(1)) and its
7-deep propagation. -/
def mateProvingTree4 : NTree :=
  backpropagateMate 512 (setTerminalAt mateProvingTree3 [2, 2, 0, 0, 0, 0] (some 1)) [2, 2, 0, 0, 0, 0]

/-- One complete MCTS simulation's effect on the tree counters once a value is
available (RunMcts lines 1024-1078): the leaf reached by the search path is
expanded (children appear with zero visits, or none for a terminal leaf) and
Backpropagate walks the path. The visitingCount increments from selection are
applied separately by `incVisitingAlong`. -/
def simStep (t : NTree) (p : List Nat) (ncs : List (Nat × Rat)) (v : Rat) : NTree :=
  backpropagateAlong (expandLeafAt t p ncs) p v

/-- The visit-count invariant of spec section 8 (invariant 1): every expanded
node's visitCount accounts for the visits of its children, plus one leaf
visit for every node except the search root, whose initial expansion happens
outside a simulation. `isRoot` is true only at the root of the game tree. -/
inductive Bal : Bool → NTree → Prop where
  | mk : ∀ (isRoot : Bool) (d : NodeData) (cs : List (Nat × NTree)),
      (cs = [] ∨ d.visitCount = sumChildrenVC cs + (if isRoot then 0 else 1)) →
      (∀ mc ∈ cs, Bal false mc.2) → Bal isRoot (.mk d cs)

/-- Every node in the tree has visitingCount zero (the quiescent-point
condition of the virtual-visit accounting). -/
inductive AllVisitingZero : NTree → Prop where
  | mk : ∀ (d : NodeData) (cs : List (Nat × NTree)),
      d.visitingCount = 0 →
      (∀ mc ∈ cs, AllVisitingZero mc.2) → AllVisitingZero (.mk d cs)

/-- The category-separating shift WorseThan applies before comparing distinct
EitherMateN values. -/
def shiftedMateTerm (maxMoves e : Int) : Int :=
  e + (((if e < 0 then 1 else 0) - (if e > 0 then 1 else 0)) * 2 * maxMoves)

/-! Concrete inputs for the scenario claims. -/

/-- Zobrist keys (abstract stand-ins) of the positions reached by
e2e4 d7d6 d1g4 g8f6 g4d1 f6g8 d1g4 from the starting position: the position
after move 3 (d1g4) recurs after move 7, and no other pair coincides. -/
def twofoldKeys : List Nat := [0, 1, 2, 3, 4, 5, 6, 3]

/-- Environment of the final position of the twofold-repetition scenario with
the starting position as search root (ply 7, search root ply 0): the rule50
counter is 5 (moves 3-7 move only queen and knight), the cache is empty, the
position has legal moves (only nonemptiness matters) and black is not in
check. -/
def twofoldEnvRootStart : EEEnv :=
  { tryHard := false, ply := 7, searchRootPly := 0, predictionCacheMaxPly := 0,
    cacheProbe := none, legalMoves := List.range 27, inCheck := false,
    rule50 := 5, repetition := repetitionOf twofoldKeys }

/-- The same final position, with the search root snapped after the first 6
moves (search root ply 6). -/
def twofoldEnvRootSix : EEEnv :=
  { twofoldEnvRootStart with searchRootPly := 6 }

/-- A fresh unexpanded root for the scenario evaluations. -/
def emptyEENode : EENode := { terminalValue := none, children := [] }

/-- Two sibling nodes that differ (in prior) but agree on everything WorseThan
compares: EitherMateN 0 on both, 5 visits each. -/
def tieNodeA : NodeData := { NodeData.fresh 0 with visitCount := 5 }

def tieNodeB : NodeData := { NodeData.fresh 1 with visitCount := 5 }

/-- A network evaluation with 53 legal moves whose priors tie at the cut: moves
0 and 1 both have prior 3, and moves 2..52 have prior 9, so the kept 52
entries contain exactly one of the tied pair. -/
def tieBreakInput : List (Nat × Rat) :=
  (0, 3) :: (1, 3) :: (List.range 51).map (fun i => (i + 2, 9))

/-- A small quiescent tree satisfying the visit-count invariant: the root
(2 visits) has one child (2 visits: one as leaf, one through its own child)
with one grandchild (1 visit). -/
def balWitnessTree : NTree :=
  .mk { NodeData.fresh 0 with visitCount := 2 }
    [(4, .mk { NodeData.fresh (1/2) with visitCount := 2 }
      [(7, .mk { NodeData.fresh 1 with visitCount := 1 } [])])]

/-! Helper lemmas (shared; not tied to any single claim). -/

theorem worseThan_eq (maxMoves : Int) (l r : NodeData) :
    worseThan maxMoves (some l) r =
      (if TerminalValue.eitherMateN l.terminalValue ≠ TerminalValue.eitherMateN r.terminalValue
       then decide (shiftedMateTerm maxMoves (TerminalValue.eitherMateN l.terminalValue) >
                    shiftedMateTerm maxMoves (TerminalValue.eitherMateN r.terminalValue))
       else decide (l.visitCount < r.visitCount)) := by
  simp only [worseThan, shiftedMateTerm]

theorem lookupChild_mem {cs : List (Nat × NTree)} {m : Nat} {c : NTree}
    (h : lookupChild cs m = some c) : (m, c) ∈ cs := by
  induction cs with
  | nil => simp [lookupChild] at h
  | cons hd tl ih =>
    rw [lookupChild] at h
    split at h
    · rename_i hk
      cases h
      subst hk
      exact List.mem_cons_self _ _
    · exact List.mem_cons_of_mem _ (ih h)

theorem updateChild_id (cs : List (Nat × NTree)) (m : Nat) :
    updateChild cs m (fun c => c) = cs := by
  induction cs with
  | nil => rfl
  | cons hd tl ih =>
    obtain ⟨k, c⟩ := hd
    rw [updateChild]
    split <;> simp [ih]

theorem updateChild_comp (cs : List (Nat × NTree)) (m : Nat) (g1 g2 : NTree → NTree) :
    updateChild (updateChild cs m g1) m g2 = updateChild cs m (fun c => g2 (g1 c)) := by
  induction cs with
  | nil => rfl
  | cons hd tl ih =>
    obtain ⟨k, c⟩ := hd
    rw [updateChild]
    split
    · rename_i hk
      rw [updateChild, if_pos hk, updateChild, if_pos hk]
    · rename_i hk
      rw [updateChild, if_neg hk, updateChild, if_neg hk, ih]

theorem updateChild_self {cs : List (Nat × NTree)} {m : Nat} {c : NTree}
    (h : lookupChild cs m = some c) : updateChild cs m (fun _ => c) = cs := by
  induction cs with
  | nil => rfl
  | cons hd tl ih =>
    obtain ⟨k, c'⟩ := hd
    rw [lookupChild] at h
    rw [updateChild]
    split
    · rename_i hk
      rw [if_pos hk] at h
      cases h
      rfl
    · rename_i hk
      rw [if_neg hk] at h
      rw [ih h]

theorem sumChildrenVC_updateChild {cs : List (Nat × NTree)} {m : Nat} {c : NTree}
    (g : NTree → NTree) (h : lookupChild cs m = some c) :
    sumChildrenVC (updateChild cs m g) =
      sumChildrenVC cs - c.data.visitCount + (g c).data.visitCount := by
  induction cs with
  | nil => simp [lookupChild] at h
  | cons hd tl ih =>
    obtain ⟨k, c'⟩ := hd
    rw [lookupChild] at h
    rw [updateChild]
    split
    · rename_i hk
      rw [if_pos hk] at h
      cases h
      simp [sumChildrenVC]
      ring
    · rename_i hk
      rw [if_neg hk] at h
      simp [sumChildrenVC, ih h]
      ring

theorem updateChild_pred {cs : List (Nat × NTree)} {m : Nat} {g : NTree → NTree}
    {P : NTree → Prop} (hall : ∀ mc ∈ cs, P mc.2)
    (hg : ∀ c, lookupChild cs m = some c → P (g c)) :
    ∀ mc ∈ updateChild cs m g, P mc.2 := by
  induction cs with
  | nil => simp [updateChild]
  | cons hd tl ih =>
    obtain ⟨k, c'⟩ := hd
    intro mc hmc
    rw [updateChild] at hmc
    split at hmc
    · rename_i hk
      rcases List.mem_cons.mp hmc with h | h
      · subst h
        exact hg c' (by rw [lookupChild, if_pos hk])
      · exact hall mc (List.mem_cons_of_mem _ h)
    · rename_i hk
      rcases List.mem_cons.mp hmc with h | h
      · subst h
        exact hall (k, c') (List.mem_cons_self _ _)
      · refine ih (fun mc' hmc' => hall mc' (List.mem_cons_of_mem _ hmc')) ?_ mc h
        intro c hc
        exact hg c (by rw [lookupChild, if_neg hk]; exact hc)

/-! Claim theorems. -/

/-- C9: TerminalValue::ImmediateValue returns the win value (1.0) iff the tag
is exactly MateIn(1); every other tag - NonTerminal, Draw, MateIn(n) with
n >= 2 and OpponentMateIn(n) - yields the draw value (0.5), and a loss value
is never returned. -/
theorem immediateValue_win_iff_mateInOne :
    ∀ tv : Option Int,
      (TerminalValue.immediateValue tv = chesscoachValueWin ↔ tv = some (TerminalValue.mateIn 1))
      ∧ (tv ≠ some (TerminalValue.mateIn 1) →
          TerminalValue.immediateValue tv = chesscoachValueDraw)
      ∧ TerminalValue.immediateValue tv ≠ chesscoachValueLoss
      ∧ TerminalValue.immediateValue TerminalValue.nonTerminal = chesscoachValueDraw
      ∧ TerminalValue.immediateValue (some TerminalValue.drawValue) = chesscoachValueDraw
      ∧ (∀ n : Int, 2 ≤ n →
          TerminalValue.immediateValue (some (TerminalValue.mateIn n)) = chesscoachValueDraw)
      ∧ (∀ n : Int, 1 ≤ n →
          TerminalValue.immediateValue (some (TerminalValue.opponentMateIn n)) = chesscoachValueDraw) := by
  intro tv
  refine ⟨?_, ?_, ?_, by norm_num [TerminalValue.immediateValue, TerminalValue.nonTerminal],
    by norm_num [TerminalValue.immediateValue, TerminalValue.drawValue, TerminalValue.mateIn],
    ?_, ?_⟩
  · by_cases h : tv = some (TerminalValue.mateIn 1) <;>
      norm_num [TerminalValue.immediateValue, chesscoachValueWin, chesscoachValueDraw, h]
  · intro h
    norm_num [TerminalValue.immediateValue, h]
  · by_cases h : tv = some (TerminalValue.mateIn 1) <;>
      norm_num [TerminalValue.immediateValue, chesscoachValueWin, chesscoachValueDraw,
        chesscoachValueLoss, h]
  · intro n hn
    simp only [TerminalValue.immediateValue, TerminalValue.mateIn, beq_iff_eq,
      Option.some.injEq]
    rw [if_neg (by omega : ¬ n = (1 : Int))]
  · intro n hn
    simp only [TerminalValue.immediateValue, TerminalValue.mateIn, TerminalValue.opponentMateIn,
      beq_iff_eq, Option.some.injEq]
    rw [if_neg (by omega : ¬ -n = (1 : Int))]

/-- Witness for C9 at the tag MateIn(5). -/
theorem immediateValue_win_iff_mateInOne_witness :
    some (5 : Int) ≠ some (TerminalValue.mateIn 1) ∧
      TerminalValue.immediateValue (some (5 : Int)) = chesscoachValueDraw :=
  ⟨by decide, (immediateValue_win_iff_mateInOne (some 5)).2.1 (by decide)⟩

/-- C8: CheckTimeControl stops the search with strict priority: never while
the root has no best child; never when the time control is infinite; else at
moveTimeMs when positive; else at the game-clock allowance
timeRemaining/TimeControl_FractionOfRemaining + increment -
TimeControl_SafetyBufferMs when that is positive; else after NumSimulations
simulations. -/
theorem checkTimeControl_spec :
    ∀ inp : TimeControlInput, inp.searching = true →
      (checkTimeControl inp = false ↔
        (inp.bestChildExists = true ∧ inp.infinite = false ∧
          ((inp.moveTimeMs > 0 ∧ inp.searchTimeMs ≥ inp.moveTimeMs) ∨
           (inp.moveTimeMs ≤ 0 ∧ timeAllowedMs inp > 0 ∧ inp.searchTimeMs ≥ timeAllowedMs inp) ∨
           (inp.moveTimeMs ≤ 0 ∧ timeAllowedMs inp ≤ 0 ∧
             inp.mctsSimulations ≥ inp.numSimulations))))
      ∧ (inp.bestChildExists = false → checkTimeControl inp = true)
      ∧ (inp.infinite = true → checkTimeControl inp = true)
      ∧ timeAllowedMs inp =
          Int.tdiv inp.timeRemainingMs inp.fractionOfRemaining + inp.incrementMs
            - inp.safetyBufferMs := by
  intro inp hs
  refine ⟨?_, ?_, ?_, rfl⟩
  · simp only [checkTimeControl, hs]
    split_ifs <;> simp_all
  · intro h
    simp [checkTimeControl, h, hs]
  · intro h
    simp [checkTimeControl, h, hs]

/-- Witness for C8: a search with a best move, 40ms elapsed of a 30ms
movetime budget stops. -/
theorem checkTimeControl_spec_witness :
    ({ searching := true, bestChildExists := true, infinite := false, moveTimeMs := 30,
       searchTimeMs := 40, toPlay := false, timeRemainingWhiteMs := 0,
       timeRemainingBlackMs := 0, incrementWhiteMs := 0, incrementBlackMs := 0,
       fractionOfRemaining := 20, safetyBufferMs := 100, mctsSimulations := 3,
       numSimulations := 800 } : TimeControlInput).searching = true ∧
    checkTimeControl
      { searching := true, bestChildExists := true, infinite := false, moveTimeMs := 30,
        searchTimeMs := 40, toPlay := false, timeRemainingWhiteMs := 0,
        timeRemainingBlackMs := 0, incrementWhiteMs := 0, incrementBlackMs := 0,
        fractionOfRemaining := 20, safetyBufferMs := 100, mctsSimulations := 3,
        numSimulations := 800 } = false :=
  ⟨rfl, by
    refine ((checkTimeControl_spec _ rfl).1).mpr ?_
    refine ⟨rfl, rfl, Or.inl ⟨by decide, by decide⟩⟩⟩

/-- C2: IsDrawByNoProgressOrRepetition is true iff the 50-move counter
exceeds 99 or a repetition occurred within plyToSearchRoot plies (a single
repetition - positive StateInfo.repetition - counts exactly when its distance
is inside the search, i.e. the earlier occurrence is strictly after the
search root; a double repetition - negative - always counts). Consequently,
for e2e4 d7d6 d1g4 g8f6 g4d1 f6g8 d1g4 searched from the starting position
ExpandAndEvaluate returns the draw value 0.5, while with the search root
snapped after the first 6 moves the same position returns NaN
(WaitingForPrediction). -/
theorem isDrawByNoProgressOrRepetition_spec :
    (∀ rule50 repetition ply : Int,
      (isDrawByNoProgressOrRepetition rule50 repetition ply = true ↔
        (rule50 > 99 ∨ (repetition ≠ 0 ∧ repetition < ply))))
    ∧ (∀ rule50 repetition ply : Int, rule50 ≤ 99 → repetition < 0 → 0 ≤ ply →
        isDrawByNoProgressOrRepetition rule50 repetition ply = true)
    ∧ (∀ rule50 repetition ply : Int, rule50 ≤ 99 → 0 < repetition →
        (isDrawByNoProgressOrRepetition rule50 repetition ply = true ↔ repetition < ply))
    ∧ repetitionOf twofoldKeys = 4
    ∧ expandAndEvaluateWorking twofoldEnvRootStart emptyEENode =
        ({ terminalValue := some TerminalValue.drawValue, children := [] },
          some chesscoachValueDraw, SelfPlayStateM.working)
    ∧ expandAndEvaluateWorking twofoldEnvRootSix emptyEENode =
        (emptyEENode, none, SelfPlayStateM.waitingForPrediction) := by
  refine ⟨?_, ?_, ?_, rfl, rfl, rfl⟩
  · intro rule50 repetition ply
    simp [isDrawByNoProgressOrRepetition]
  · intro rule50 repetition ply h1 h2 h3
    simp [isDrawByNoProgressOrRepetition]
    omega
  · intro rule50 repetition ply h1 h2
    simp [isDrawByNoProgressOrRepetition]
    omega

/-- Witness for C2: a twofold repetition 4 plies back, searched 7 plies deep,
is a draw; searched 1 ply deep it is not. -/
theorem isDrawByNoProgressOrRepetition_spec_witness :
    ((5 : Int) ≤ 99 ∧ (0 : Int) < 4 ∧
      (isDrawByNoProgressOrRepetition 5 4 7 = true ↔ (4 : Int) < 7)) ∧
    isDrawByNoProgressOrRepetition 5 4 7 = true ∧
    isDrawByNoProgressOrRepetition 5 4 1 = false :=
  ⟨⟨by decide, by decide, isDrawByNoProgressOrRepetition_spec.2.2.1 5 4 7 (by decide) (by decide)⟩,
    by decide, by decide⟩

/-- C3: when the Working phase of ExpandAndEvaluate misses the cache and
generates an empty legal-move list, it creates zero children, sets the
terminal value to MateIn(1) when in check (checkmate) and Draw otherwise
(stalemate), and immediately returns the corresponding value (1.0 or 0.5,
parent perspective) with the state still Working. -/
theorem expandAndEvaluate_terminal_spec :
    ∀ (env : EEEnv) (root : EENode),
      TerminalValue.isImmediate root.terminalValue = false →
      env.cacheProbe = none →
      env.legalMoves = [] →
      root.children = [] →
      expandAndEvaluateWorking env root =
        ({ terminalValue := some (if env.inCheck then TerminalValue.mateIn 1
              else TerminalValue.drawValue), children := [] },
          some (if env.inCheck then chesscoachValueWin else chesscoachValueDraw),
          SelfPlayStateM.working) := by
  intro env root h1 h2 h3 h4
  simp only [expandAndEvaluateWorking, h1, h2, h3, h4, Bool.false_eq_true, if_false,
    List.isEmpty_nil, if_true]
  have hc : (if env.tryHard || env.ply ≤ env.predictionCacheMaxPly then
      (none : Option (Rat × List (Nat × Rat))) else none) = none := by
    split <;> rfl
  rw [hc]
  by_cases hic : env.inCheck = true
  · simp [hic, TerminalValue.immediateValue, TerminalValue.mateIn, chesscoachValueWin]
  · have hic' : env.inCheck = false := by
      cases h : env.inCheck
      · rfl
      · exact absurd h hic
    simp [hic', TerminalValue.immediateValue, TerminalValue.mateIn, TerminalValue.drawValue,
      chesscoachValueDraw]

/-- Witness for C3: a checkmate position (in check, no legal moves, empty
cache) reports MateIn(1) with value 1. -/
theorem expandAndEvaluate_terminal_spec_witness :
    TerminalValue.isImmediate (emptyEENode.terminalValue) = false ∧
    expandAndEvaluateWorking
      { tryHard := true, ply := 3, searchRootPly := 0, predictionCacheMaxPly := 0,
        cacheProbe := none, legalMoves := [], inCheck := true, rule50 := 0, repetition := 0 }
      emptyEENode =
      ({ terminalValue := some (if true then TerminalValue.mateIn 1
            else TerminalValue.drawValue), children := [] },
        some (if true then chesscoachValueWin else chesscoachValueDraw),
        SelfPlayStateM.working) :=
  ⟨by decide,
    expandAndEvaluate_terminal_spec
      { tryHard := true, ply := 3, searchRootPly := 0, predictionCacheMaxPly := 0,
        cacheProbe := none, legalMoves := [], inCheck := true, rule50 := 0, repetition := 0 }
      emptyEENode rfl rfl rfl rfl⟩

/-- C4: Backpropagate walks the search path from root to leaf; the node at
depth i receives exactly one visitingCount decrement, one visitCount
increment, and adds v when i is even and 1-v when i is odd (the value is
flipped after each node); beforehand RunMcts flips the value once exactly
when the scratch game's side to move differs from the real game's. -/
theorem backpropagate_spec :
    (∀ (path : List NodeData) (v : Rat), (backpropagate path v).length = path.length)
    ∧ (∀ (path : List NodeData) (v : Rat) (i : Nat) (d : NodeData),
        path[i]? = some d →
        (backpropagate path v)[i]? =
          some (backpropUpdate (if i % 2 = 0 then v else flipValue v) d))
    ∧ (∀ (gameToPlay scratchToPlay : Bool) (path : List NodeData) (v : Rat),
        runMctsBackpropagate gameToPlay scratchToPlay path v =
          backpropagate path (if gameToPlay ≠ scratchToPlay then 1 - v else v))
    ∧ (∀ (v : Rat) (d : NodeData),
        backpropUpdate v d =
          { d with visitingCount := d.visitingCount - 1,
                   visitCount := d.visitCount + 1,
                   valueSum := d.valueSum + v })
    ∧ (∀ v : Rat, flipValue (flipValue v) = v) := by
  refine ⟨?_, ?_, ?_, fun v d => rfl, fun v => by simp [flipValue]⟩
  · intro path
    induction path with
    | nil => intro v; rfl
    | cons hd tl ih => intro v; simp [backpropagate, ih]
  · intro path
    induction path with
    | nil => intro v i d h; simp at h
    | cons hd tl ih =>
      intro v i d h
      cases i with
      | zero =>
        simp at h
        subst h
        simp [backpropagate]
      | succ i =>
        simp at h
        rw [backpropagate]
        simp only [List.getElem?_cons_succ]
        rw [ih (flipValue v) i d h]
        congr 1
        by_cases hp : i % 2 = 0
        · have h1 : ¬ (i + 1) % 2 = 0 := by omega
          simp [hp, h1, flipValue]
        · have h1 : (i + 1) % 2 = 0 := by omega
          simp [hp, h1, flipValue]
  · intro gameToPlay scratchToPlay path v
    cases gameToPlay <;> cases scratchToPlay <;>
      simp [runMctsBackpropagate, flipValueColor, flipValue]

/-- Witness for C4: a two-node path receives v at the root and 1-v at the
leaf. -/
theorem backpropagate_spec_witness :
    ([NodeData.fresh 0, NodeData.fresh 1][1]? = some (NodeData.fresh 1)) ∧
    (backpropagate [NodeData.fresh 0, NodeData.fresh 1] (3/4))[1]? =
      some (backpropUpdate (if 1 % 2 = 0 then (3/4 : Rat) else flipValue (3/4))
        (NodeData.fresh 1)) :=
  ⟨by decide, backpropagate_spec.2.1 [NodeData.fresh 0, NodeData.fresh 1] (3/4) 1
    (NodeData.fresh 1) (by decide)⟩

/-- Counterexample for C5: two distinct non-null nodes (differing in prior)
that agree on EitherMateN and visitCount are not ordered by WorseThan in
either direction, so WorseThan is not total on distinct nodes. -/
theorem worseThan_total_counterexample :
    tieNodeA ≠ tieNodeB ∧
    worseThan 512 (some tieNodeA) tieNodeB = false ∧
    worseThan 512 (some tieNodeB) tieNodeA = false := by
  refine ⟨by decide, by decide, by decide⟩

/-- C5 (amended): restricted to non-null nodes, WorseThan is a strict weak
order - irreflexive, asymmetric (hence antisymmetric) and transitive - and it
is total on nodes that differ in the compared key (EitherMateN, visitCount),
with distinct EitherMateN values ordered whenever the mate distances are
below 2 * MaxMoves; nodes equal on the key (even when distinct) are mutually
unordered. WorseThan(null, x) is true for every x. The order prefers faster
self-mates first, then non-mate nodes by visit count, then slower opponent
mates. -/
theorem worseThan_strict_weak_order :
    (∀ (M : Int) (a : NodeData), worseThan M (some a) a = false)
    ∧ (∀ (M : Int) (a b : NodeData), worseThan M (some a) b = true →
        worseThan M (some b) a = false)
    ∧ (∀ (M : Int) (a b c : NodeData), worseThan M (some a) b = true →
        worseThan M (some b) c = true → worseThan M (some a) c = true)
    ∧ (∀ (M : Int) (b : NodeData), worseThan M none b = true)
    ∧ (∀ (M : Int) (a b : NodeData),
        TerminalValue.eitherMateN a.terminalValue = TerminalValue.eitherMateN b.terminalValue →
        a.visitCount ≠ b.visitCount →
        (worseThan M (some a) b = true ∨ worseThan M (some b) a = true))
    ∧ (∀ (M : Int) (a b : NodeData),
        TerminalValue.eitherMateN a.terminalValue ≠ TerminalValue.eitherMateN b.terminalValue →
        -(2 * M) < TerminalValue.eitherMateN a.terminalValue →
        TerminalValue.eitherMateN a.terminalValue < 2 * M →
        -(2 * M) < TerminalValue.eitherMateN b.terminalValue →
        TerminalValue.eitherMateN b.terminalValue < 2 * M →
        (worseThan M (some a) b = true ∨ worseThan M (some b) a = true))
    ∧ (∀ (M : Int) (a b : NodeData),
        0 < TerminalValue.eitherMateN a.terminalValue →
        TerminalValue.eitherMateN a.terminalValue < TerminalValue.eitherMateN b.terminalValue →
        worseThan M (some b) a = true)
    ∧ (∀ (M : Int) (a b : NodeData),
        0 < TerminalValue.eitherMateN a.terminalValue →
        TerminalValue.eitherMateN a.terminalValue < 2 * M →
        TerminalValue.eitherMateN b.terminalValue = 0 →
        worseThan M (some b) a = true)
    ∧ (∀ (M : Int) (a b : NodeData),
        TerminalValue.eitherMateN a.terminalValue = 0 →
        TerminalValue.eitherMateN b.terminalValue < 0 →
        -2 * M < TerminalValue.eitherMateN b.terminalValue →
        worseThan M (some b) a = true)
    ∧ (∀ (M : Int) (a b : NodeData),
        TerminalValue.eitherMateN a.terminalValue < TerminalValue.eitherMateN b.terminalValue →
        TerminalValue.eitherMateN b.terminalValue < 0 →
        worseThan M (some b) a = true) := by
  refine ⟨?_, ?_, ?_, fun M b => rfl, ?_, ?_, ?_, ?_, ?_, ?_⟩
  · intro M a
    rw [worseThan_eq]
    simp
  · intro M a b hab
    rw [worseThan_eq] at hab ⊢
    split_ifs at hab ⊢ <;> simp_all <;> omega
  · intro M a b c hab hbc
    rw [worseThan_eq] at hab hbc ⊢
    split_ifs at hab hbc ⊢ <;> simp_all <;> omega
  · intro M a b he hv
    rw [worseThan_eq, worseThan_eq]
    split_ifs <;> simp_all
  · intro M a b he ha1 ha2 hb1 hb2
    rw [worseThan_eq, worseThan_eq, if_pos he, if_pos (Ne.symm he)]
    simp only [decide_eq_true_eq, shiftedMateTerm]
    split_ifs <;> omega
  · intro M a b ha hab
    rw [worseThan_eq]
    have hne : TerminalValue.eitherMateN b.terminalValue ≠
        TerminalValue.eitherMateN a.terminalValue := by omega
    rw [if_pos hne]
    simp only [decide_eq_true_eq, shiftedMateTerm]
    split_ifs <;> omega
  · intro M a b ha haM hb
    rw [worseThan_eq]
    have hne : TerminalValue.eitherMateN b.terminalValue ≠
        TerminalValue.eitherMateN a.terminalValue := by omega
    rw [if_pos hne]
    simp only [decide_eq_true_eq, shiftedMateTerm]
    split_ifs <;> omega
  · intro M a b ha hb hbM
    rw [worseThan_eq]
    have hne : TerminalValue.eitherMateN b.terminalValue ≠
        TerminalValue.eitherMateN a.terminalValue := by omega
    rw [if_pos hne]
    simp only [decide_eq_true_eq, shiftedMateTerm]
    split_ifs <;> omega
  · intro M a b hab hb
    rw [worseThan_eq]
    have hne : TerminalValue.eitherMateN b.terminalValue ≠
        TerminalValue.eitherMateN a.terminalValue := by omega
    rw [if_pos hne]
    simp only [decide_eq_true_eq, shiftedMateTerm]
    split_ifs <;> omega

/-- Witness for C5 (amended), on the MateComparisons ladder: an
OpponentMateIn(2) node is worse than a 10-visit non-mate node, which is worse
than a MateIn(1) node, and transitivity chains them. -/
theorem worseThan_strict_weak_order_witness :
    worseThan 512 (some { NodeData.fresh 0 with terminalValue := some (-2) })
      { NodeData.fresh 0 with visitCount := 10 } = true ∧
    worseThan 512 (some { NodeData.fresh 0 with visitCount := 10 })
      { NodeData.fresh 0 with terminalValue := some 1 } = true ∧
    worseThan 512 (some { NodeData.fresh 0 with terminalValue := some (-2) })
      { NodeData.fresh 0 with terminalValue := some 1 } = true :=
  ⟨by decide, by decide,
    worseThan_strict_weak_order.2.2.1 512
      { NodeData.fresh 0 with terminalValue := some (-2) }
      { NodeData.fresh 0 with visitCount := 10 }
      { NodeData.fresh 0 with terminalValue := some 1 }
      (by decide) (by decide)⟩

theorem updateChild_congr {cs : List (Nat × NTree)} {m : Nat} {c : NTree}
    {g g' : NTree → NTree} (h : lookupChild cs m = some c) (hg : g c = g' c) :
    updateChild cs m g = updateChild cs m g' := by
  induction cs with
  | nil => rfl
  | cons hd tl ih =>
    obtain ⟨k, c'⟩ := hd
    rw [lookupChild] at h
    rw [updateChild, updateChild]
    split
    · rename_i hk
      rw [if_pos hk] at h
      cases h
      rw [hg]
    · rename_i hk
      rw [if_neg hk] at h
      rw [ih h]

theorem foldl_bestChild_terminal (M : Int) (cs : List (Nat × NTree)) :
    ∀ (l : List (Nat × NTree)) (acc : NodeData),
      (l.foldl (fun acc mc =>
        if worseThan M ((acc.bestChild.bind (lookupChild cs)).map NTree.data) mc.2.data
        then { acc with bestChild := some mc.1 } else acc) acc).terminalValue =
        acc.terminalValue := by
  intro l
  induction l with
  | nil => intro acc; rfl
  | cons hd tl ih =>
    intro acc
    rw [List.foldl_cons, ih]
    split <;> rfl

theorem fixPrincipleVariation_children (M : Int) (d : NodeData) (cs : List (Nat × NTree)) :
    (fixPrincipleVariation M (.mk d cs)).children = cs := rfl

theorem fixPrincipleVariation_terminal (M : Int) (d : NodeData) (cs : List (Nat × NTree)) :
    ((fixPrincipleVariation M (.mk d cs)).data).terminalValue = d.terminalValue := by
  rw [fixPrincipleVariation]
  exact foldl_bestChild_terminal M cs cs d

@[simp]
theorem NTree.data_mk (d : NodeData) (cs : List (Nat × NTree)) : (NTree.mk d cs).data = d := rfl

@[simp]
theorem NTree.children_mk (d : NodeData) (cs : List (Nat × NTree)) :
    (NTree.mk d cs).children = cs := rfl

@[simp]
theorem NTree.withTerminal_terminal (t : NTree) (tv : Option Int) :
    ((t.withTerminal tv).data).terminalValue = tv := by
  cases t
  rfl

@[simp]
theorem NTree.withTerminal_children (t : NTree) (tv : Option Int) :
    (t.withTerminal tv).children = t.children := by
  cases t
  rfl

/-- The Bool condition of BackpropagateMate's mate branch agrees with "the
parent was not already OpponentMateIn(k) with k <= n". -/
theorem bpm_mate_condition (tv : Option Int) (n : Int) :
    ((!(TerminalValue.isOpponentMateInN tv) ||
        decide (n < TerminalValue.opponentMateN tv)) = true) ↔
      ¬ (TerminalValue.isOpponentMateInN tv = true ∧ TerminalValue.opponentMateN tv ≤ n) := by
  cases tv with
  | none => simp [TerminalValue.isOpponentMateInN]
  | some v =>
    by_cases hv : v < 0
    · simp [TerminalValue.isOpponentMateInN, TerminalValue.opponentMateN, hv]
      omega
    · simp [TerminalValue.isOpponentMateInN, TerminalValue.opponentMateN, hv]

/-- One unfolding step of bpmAux at a parent whose path child exists. -/
theorem bpmAux_cons (M : Int) (d : NodeData) (cs : List (Nat × NTree)) (m : Nat)
    (p : List Nat) (c : NTree) (h : lookupChild cs m = some c) :
    bpmAux M (.mk d cs) (m :: p) =
      (let r := bpmAux M c p
       let t1 := NTree.mk d (updateChild cs m (fun _ => r.1))
       let t2 := if r.2.2.2 then fixPrincipleVariation M t1 else t1
       if !r.2.1 then (t2, false, true, false)
       else if r.2.2.1 then
         (if (!(TerminalValue.isOpponentMateInN t2.data.terminalValue) ||
             decide (TerminalValue.mateN r.1.data.terminalValue <
               TerminalValue.opponentMateN t2.data.terminalValue)) = true then
           (t2.withTerminal (some (TerminalValue.opponentMateIn
             (TerminalValue.mateN r.1.data.terminalValue))), true, false, true)
         else (t2, false, true, false))
       else
         (if allChildrenOppMate t2.children = true then
           (t2.withTerminal (some (TerminalValue.mateIn (maxOppMateN t2.children + 1))),
             true, true, false)
         else (t2, false, true, false))) := by
  simp only [bpmAux, h]

/-- C1: BackpropagateMate walks parents from the leaf toward the root with an
alternating flag. A parent whose path child is MateIn(n) becomes
OpponentMateIn(n) exactly when it was not already OpponentMateIn(k) with
k <= n, the walk stopping when unchanged (first conjunct, stated one step up
from the mate child). A parent whose path child just became an opponent mate
becomes MateIn(m+1) exactly when every one of its children is OpponentMateIn,
with m the maximum of their OpponentMateN values, the walk stopping otherwise
(second conjunct, two steps up from the mate leaf). In the 3-ply,
3-children-per-node MctsTest tree, after the third leaf marking and its
7-deep propagation the root becomes MateIn(4) (remaining conjuncts). -/
theorem backpropagateMate_spec :
    (∀ (M : Int) (t c : NTree) (m : Nat) (n : Int),
      lookupChild t.children m = some c →
      c.data.terminalValue = some n → 0 < n →
      ((¬ (TerminalValue.isOpponentMateInN t.data.terminalValue = true ∧
            TerminalValue.opponentMateN t.data.terminalValue ≤ n)) →
          ((backpropagateMate M t [m]).data).terminalValue =
            some (TerminalValue.opponentMateIn n))
      ∧ ((TerminalValue.isOpponentMateInN t.data.terminalValue = true ∧
            TerminalValue.opponentMateN t.data.terminalValue ≤ n) →
          ((backpropagateMate M t [m]).data).terminalValue = t.data.terminalValue))
    ∧ (∀ (M : Int) (t c1 c2 : NTree) (m1 m2 : Nat) (n : Int),
      lookupChild t.children m1 = some c1 →
      lookupChild c1.children m2 = some c2 →
      c2.data.terminalValue = some n → 0 < n →
      (¬ (TerminalValue.isOpponentMateInN c1.data.terminalValue = true ∧
          TerminalValue.opponentMateN c1.data.terminalValue ≤ n)) →
      (allChildrenOppMate (updateChild t.children m1
            (fun c => c.withTerminal (some (TerminalValue.opponentMateIn n)))) = true →
          ((backpropagateMate M t [m1, m2]).data).terminalValue =
            some (TerminalValue.mateIn (maxOppMateN (updateChild t.children m1
              (fun c => c.withTerminal (some (TerminalValue.opponentMateIn n)))) + 1)))
      ∧ (allChildrenOppMate (updateChild t.children m1
            (fun c => c.withTerminal (some (TerminalValue.opponentMateIn n)))) = false →
          ((backpropagateMate M t [m1, m2]).data).terminalValue = t.data.terminalValue))
    ∧ (getData mateProvingTree1 [0]).map NodeData.terminalValue =
        some (some (TerminalValue.opponentMateIn 1))
    ∧ (getData mateProvingTree1 []).map NodeData.terminalValue = some TerminalValue.nonTerminal
    ∧ (getData mateProvingTree3 [1]).map NodeData.terminalValue =
        some (some (TerminalValue.opponentMateIn 2))
    ∧ (getData mateProvingTree3 []).map NodeData.terminalValue = some TerminalValue.nonTerminal
    ∧ (getData mateProvingTree4 [2]).map NodeData.terminalValue =
        some (some (TerminalValue.opponentMateIn 3))
    ∧ (getData mateProvingTree4 []).map NodeData.terminalValue =
        some (some (TerminalValue.mateIn 4)) := by
  refine ⟨?_, ?_, rfl, rfl, rfl, rfl, rfl, rfl⟩
  · intro M t c m n hlook htv hn
    cases t with
    | mk d cs =>
    cases c with
    | mk dc csc =>
    simp only [NTree.children] at hlook
    simp only [NTree.data_mk] at htv ⊢
    have hm : TerminalValue.mateN dc.terminalValue = n := by
      rw [htv]
      simp [TerminalValue.mateN]
      omega
    have h1 : backpropagateMate M (.mk d cs) [m] =
        (if (!(TerminalValue.isOpponentMateInN d.terminalValue) ||
            decide (n < TerminalValue.opponentMateN d.terminalValue)) = true then
          (NTree.mk d (updateChild cs m (fun _ => NTree.mk dc csc))).withTerminal
            (some (TerminalValue.opponentMateIn n))
        else NTree.mk d (updateChild cs m (fun _ => NTree.mk dc csc))) := by
      rw [backpropagateMate, bpmAux_cons M d cs m [] _ hlook]
      simp only [bpmAux, NTree.data_mk, Bool.not_true, Bool.false_eq_true, if_false,
        reduceIte, hm]
      split <;> rfl
    constructor
    · intro hcond
      rw [h1, if_pos ((bpm_mate_condition d.terminalValue n).mpr hcond)]
      simp
    · intro hcond
      have hb : ¬ ((!(TerminalValue.isOpponentMateInN d.terminalValue) ||
          decide (n < TerminalValue.opponentMateN d.terminalValue)) = true) := by
        rw [bpm_mate_condition]
        exact fun hc => hc hcond
      rw [h1, if_neg hb]
      rfl
  · intro M t c1 c2 m1 m2 n hlook1 hlook2 htv hn hupd
    cases t with
    | mk d cs =>
    cases c1 with
    | mk d1 cs1 =>
    cases c2 with
    | mk d2 cs2 =>
    simp only [NTree.children] at hlook1 hlook2 ⊢
    simp only [NTree.data_mk] at htv hupd ⊢
    have hm : TerminalValue.mateN d2.terminalValue = n := by
      rw [htv]
      simp [TerminalValue.mateN]
      omega
    have hinner : bpmAux M (.mk d1 cs1) [m2] =
        ((NTree.mk d1 cs1).withTerminal (some (TerminalValue.opponentMateIn n)),
          true, false, true) := by
      rw [bpmAux_cons M d1 cs1 m2 [] _ hlook2]
      simp only [bpmAux, NTree.data_mk, Bool.not_true, Bool.false_eq_true, if_false,
        reduceIte, hm]
      rw [if_pos ((bpm_mate_condition d1.terminalValue n).mpr hupd), updateChild_self hlook2]
    have hcongr : updateChild cs m1
        (fun _ => (NTree.mk d1 cs1).withTerminal (some (TerminalValue.opponentMateIn n))) =
        updateChild cs m1 (fun c => c.withTerminal (some (TerminalValue.opponentMateIn n))) :=
      updateChild_congr hlook1 rfl
    have houter : backpropagateMate M (.mk d cs) [m1, m2] =
        (if allChildrenOppMate (updateChild cs m1
            (fun c => c.withTerminal (some (TerminalValue.opponentMateIn n)))) = true then
          (fixPrincipleVariation M (NTree.mk d (updateChild cs m1
            (fun c => c.withTerminal (some (TerminalValue.opponentMateIn n)))))).withTerminal
            (some (TerminalValue.mateIn (maxOppMateN (updateChild cs m1
              (fun c => c.withTerminal (some (TerminalValue.opponentMateIn n)))) + 1)))
        else fixPrincipleVariation M (NTree.mk d (updateChild cs m1
            (fun c => c.withTerminal (some (TerminalValue.opponentMateIn n)))))) := by
      rw [backpropagateMate, bpmAux_cons M d cs m1 [m2] _ hlook1, hinner]
      simp only [NTree.data_mk, Bool.not_true, Bool.false_eq_true, if_false, if_true,
        ite_true, ite_false, reduceIte, hcongr, fixPrincipleVariation_children]
      split <;> rfl
    constructor
    · intro hall
      rw [houter, if_pos hall]
      simp
    · intro hall
      rw [houter, if_neg (by rw [hall]; exact Bool.false_ne_true)]
      rw [fixPrincipleVariation_terminal]

/-- Witness for C1: a non-terminal parent with a single MateIn(1) child
becomes OpponentMateIn(1). -/
theorem backpropagateMate_spec_witness :
    lookupChild (NTree.mk (NodeData.fresh 0)
        [(0, NTree.mk { NodeData.fresh 1 with terminalValue := some 1 } [])]).children 0 =
      some (NTree.mk { NodeData.fresh 1 with terminalValue := some 1 } []) ∧
    ((backpropagateMate 512 (NTree.mk (NodeData.fresh 0)
        [(0, NTree.mk { NodeData.fresh 1 with terminalValue := some 1 } [])]) [0]).data).terminalValue =
      some (TerminalValue.opponentMateIn 1) :=
  ⟨rfl,
    ((backpropagateMate_spec.1 512
      (NTree.mk (NodeData.fresh 0)
        [(0, NTree.mk { NodeData.fresh 1 with terminalValue := some 1 } [])])
      (NTree.mk { NodeData.fresh 1 with terminalValue := some 1 } [])
      0 1 rfl rfl (by decide)).1 (by decide))⟩

theorem firstMaxFrom_ge : ∀ (ys : List (Nat × Rat)) (best : Nat × Rat) (bIdx curIdx : Nat),
    (firstMaxFrom best bIdx curIdx ys).2.2 ≥ best.2 ∧
      ∀ y ∈ ys, (firstMaxFrom best bIdx curIdx ys).2.2 ≥ y.2 := by
  intro ys
  induction ys with
  | nil => intro best bIdx curIdx; exact ⟨le_refl _, by simp⟩
  | cons y ys ih =>
    intro best bIdx curIdx
    rw [firstMaxFrom]
    split
    · rename_i hgt
      obtain ⟨h1, h2⟩ := ih y curIdx (curIdx + 1)
      exact ⟨le_trans (le_of_lt hgt) h1, by
        intro z hz
        rcases List.mem_cons.mp hz with h | h
        · subst h; exact h1
        · exact h2 z h⟩
    · rename_i hgt
      obtain ⟨h1, h2⟩ := ih best bIdx (curIdx + 1)
      exact ⟨h1, by
        intro z hz
        rcases List.mem_cons.mp hz with h | h
        · subst h; exact le_trans (not_lt.mp hgt) h1
        · exact h2 z h⟩

theorem firstMaxFrom_idx : ∀ (ys : List (Nat × Rat)) (best : Nat × Rat) (bIdx curIdx : Nat),
    ((firstMaxFrom best bIdx curIdx ys).1 = bIdx ∧
      (firstMaxFrom best bIdx curIdx ys).2 = best) ∨
    (curIdx ≤ (firstMaxFrom best bIdx curIdx ys).1 ∧
      ys[(firstMaxFrom best bIdx curIdx ys).1 - curIdx]? =
        some (firstMaxFrom best bIdx curIdx ys).2) := by
  intro ys
  induction ys with
  | nil => intro best bIdx curIdx; exact Or.inl ⟨rfl, rfl⟩
  | cons y ys ih =>
    intro best bIdx curIdx
    rw [firstMaxFrom]
    split
    · rcases ih y curIdx (curIdx + 1) with ⟨h1, h2⟩ | ⟨h1, h2⟩
      · refine Or.inr ⟨by omega, ?_⟩
        rw [h1, h2]
        simp
      · refine Or.inr ⟨by omega, ?_⟩
        have hj : (firstMaxFrom y curIdx (curIdx + 1) ys).1 - curIdx =
            ((firstMaxFrom y curIdx (curIdx + 1) ys).1 - (curIdx + 1)) + 1 := by omega
        rw [hj]
        simpa using h2
    · rcases ih best bIdx (curIdx + 1) with ⟨h1, h2⟩ | ⟨h1, h2⟩
      · exact Or.inl ⟨h1, h2⟩
      · refine Or.inr ⟨by omega, ?_⟩
        have hj : (firstMaxFrom best bIdx (curIdx + 1) ys).1 - curIdx =
            ((firstMaxFrom best bIdx (curIdx + 1) ys).1 - (curIdx + 1)) + 1 := by omega
        rw [hj]
        simpa using h2

theorem cons_set_perm : ∀ (xs : List (Nat × Rat)) (i : Nat) (x m : Nat × Rat),
    xs[i]? = some m → (m :: xs.set i x).Perm (x :: xs) := by
  intro xs
  induction xs with
  | nil => intro i x m h; simp at h
  | cons y ys ih =>
    intro i x m h
    cases i with
    | zero =>
      simp at h
      subst h
      exact List.Perm.swap x y ys
    | succ i =>
      simp at h
      have h1 : (m :: (y :: ys).set (i + 1) x) = m :: y :: ys.set i x := by simp
      rw [h1]
      exact ((List.Perm.swap y m _).trans (List.Perm.cons y (ih i x m h))).trans
        (List.Perm.swap x y ys)

theorem selectionSortK_perm : ∀ (k : Nat) (l : List (Nat × Rat)),
    (selectionSortK k l).Perm l := by
  intro k
  induction k with
  | zero => intro l; rw [selectionSortK]
  | succ k ih =>
    intro l
    cases l with
    | nil => rw [selectionSortK]
    | cons x xs =>
      rw [selectionSortK]
      split
      · exact List.Perm.cons x (ih xs)
      · rename_i hj
        rcases firstMaxFrom_idx xs x 0 1 with ⟨h1, _⟩ | ⟨_, h2⟩
        · exact absurd h1 hj
        · exact (List.Perm.cons _ (ih _)).trans (cons_set_perm xs _ x _ h2)

theorem selectionSortK_sorted : ∀ (k : Nat) (l : List (Nat × Rat)),
    List.Pairwise (fun a b => a.2 ≥ b.2) ((selectionSortK k l).take k) ∧
    ∀ x ∈ (selectionSortK k l).take k, ∀ y ∈ (selectionSortK k l).drop k, x.2 ≥ y.2 := by
  intro k
  induction k with
  | zero =>
    intro l
    rw [selectionSortK]
    exact ⟨by simp, by simp⟩
  | succ k ih =>
    intro l
    cases l with
    | nil =>
      rw [selectionSortK]
      exact ⟨by simp, by simp⟩
    | cons x xs =>
      rw [selectionSortK]
      split
      · rename_i hj
        have hmax := firstMaxFrom_ge xs x 0 1
        have hx : (firstMaxFrom x 0 1 xs).2 = x := by
          rcases firstMaxFrom_idx xs x 0 1 with ⟨_, h2⟩ | ⟨h1, _⟩
          · exact h2
          · omega
        rw [hx] at hmax
        have hall : ∀ z ∈ selectionSortK k xs, x.2 ≥ z.2 := by
          intro z hz
          exact hmax.2 z ((selectionSortK_perm k xs).mem_iff.mp hz)
        simp only [List.take_succ_cons, List.drop_succ_cons]
        constructor
        · exact List.Pairwise.cons
            (fun z hz => hall z (List.take_subset k _ hz)) (ih xs).1
        · intro a ha y hy
          rcases List.mem_cons.mp ha with h | h
          · subst h
            exact hall y (List.drop_subset k _ hy)
          · exact (ih xs).2 a h y hy
      · rename_i hj
        have hmax := firstMaxFrom_ge xs x 0 1
        have hall : ∀ z ∈ selectionSortK k (xs.set ((firstMaxFrom x 0 1 xs).1 - 1) x),
            (firstMaxFrom x 0 1 xs).2.2 ≥ z.2 := by
          intro z hz
          have hz2 : z ∈ xs.set ((firstMaxFrom x 0 1 xs).1 - 1) x :=
            (selectionSortK_perm k _).mem_iff.mp hz
          rcases List.mem_or_eq_of_mem_set hz2 with h | h
          · exact hmax.2 z h
          · subst h
            exact hmax.1
        simp only [List.take_succ_cons, List.drop_succ_cons]
        constructor
        · exact List.Pairwise.cons
            (fun z hz => hall z (List.take_subset k _ hz)) (ih _).1
        · intro a ha y hy
          rcases List.mem_cons.mp ha with h | h
          · subst h
            exact hall y (List.drop_subset k _ hy)
          · exact (ih _).2 a h y hy

/-- Counterexample for C6: with 53 legal moves where moves 0 and 1 tie at
prior 3 below fifty-one prior-9 moves, the kept 52 entries contain move 1 and
not move 0, so the tie is broken in favor of the *later* move index: the
first swap of the partial selection sort displaces the earlier tied entry
past the later one. -/
theorem limitBranchingToBest_tiebreak_counterexample :
    tieBreakInput.length = 53 ∧
    ((0, (3 : Rat)) ∈ tieBreakInput) ∧ ((1, (3 : Rat)) ∈ tieBreakInput) ∧
    (expandChildrenAndStore true tieBreakInput).1.contains ((1 : Nat), (3 : Rat)) = true ∧
    (expandChildrenAndStore true tieBreakInput).1.contains ((0 : Nat), (3 : Rat)) = false := by
  decide

/-- C6 (amended): when a cache-eligible evaluation has more than K = 52 legal
moves, exactly K (move, prior) entries are kept, stored in the cache and
expanded as children; the whole array after the partial selection sort is a
permutation of the input, the kept prefix is in non-increasing prior order,
and every kept prior is >= every dropped prior (so the kept multiset is a set
of K highest-prior entries); ties between equal priors are not necessarily
broken in favor of the earlier move index. -/
theorem limitBranchingToBest_spec :
    ∀ (entries : List (Nat × Rat)), entries.length > maxBranchMoves →
      (expandChildrenAndStore true entries).1 =
        (limitBranchingToBest entries).take maxBranchMoves
      ∧ (expandChildrenAndStore true entries).2 =
          some ((expandChildrenAndStore true entries).1)
      ∧ (expandChildrenAndStore true entries).1.length = maxBranchMoves
      ∧ (limitBranchingToBest entries).Perm entries
      ∧ List.Pairwise (fun a b => a.2 ≥ b.2) ((expandChildrenAndStore true entries).1)
      ∧ (∀ x ∈ (expandChildrenAndStore true entries).1,
          ∀ y ∈ (limitBranchingToBest entries).drop maxBranchMoves, x.2 ≥ y.2) := by
  intro entries hlen
  have hexp : expandChildrenAndStore true entries =
      ((limitBranchingToBest entries).take maxBranchMoves,
        some ((limitBranchingToBest entries).take maxBranchMoves)) := by
    rw [expandChildrenAndStore, if_pos rfl, if_pos hlen]
  have hperm : (limitBranchingToBest entries).Perm entries :=
    selectionSortK_perm maxBranchMoves entries
  have hsorted := selectionSortK_sorted maxBranchMoves entries
  refine ⟨by rw [hexp], by rw [hexp], ?_, hperm, ?_, ?_⟩
  · rw [hexp]
    simp only [List.length_take, hperm.length_eq]
    omega
  · rw [hexp]
    exact hsorted.1
  · rw [hexp]
    exact hsorted.2

/-- Witness for C6 at the 53-entry tie-break input. -/
theorem limitBranchingToBest_spec_witness :
    tieBreakInput.length > maxBranchMoves ∧
      ((expandChildrenAndStore true tieBreakInput).1 =
        (limitBranchingToBest tieBreakInput).take maxBranchMoves
      ∧ (expandChildrenAndStore true tieBreakInput).2 =
          some ((expandChildrenAndStore true tieBreakInput).1)
      ∧ (expandChildrenAndStore true tieBreakInput).1.length = maxBranchMoves
      ∧ (limitBranchingToBest tieBreakInput).Perm tieBreakInput
      ∧ List.Pairwise (fun a b => a.2 ≥ b.2) ((expandChildrenAndStore true tieBreakInput).1)
      ∧ (∀ x ∈ (expandChildrenAndStore true tieBreakInput).1,
          ∀ y ∈ (limitBranchingToBest tieBreakInput).drop maxBranchMoves, x.2 ≥ y.2)) :=
  ⟨by decide, limitBranchingToBest_spec tieBreakInput (by decide)⟩

theorem updateChild_ext {cs : List (Nat × NTree)} {m : Nat} {g g' : NTree → NTree}
    (h : ∀ c, g c = g' c) : updateChild cs m g = updateChild cs m g' := by
  have : g = g' := funext h
  rw [this]

theorem updateAlong_comp (f g : NodeData → NodeData) :
    ∀ (p : List Nat) (t : NTree),
      updateAlong g (updateAlong f t p) p = updateAlong (fun d => g (f d)) t p := by
  intro p
  induction p with
  | nil =>
    intro t
    cases t
    rw [updateAlong, updateAlong, updateAlong]
  | cons m p ih =>
    intro t
    cases t with
    | mk d cs =>
      rw [updateAlong, updateAlong, updateAlong, updateChild_comp]
      exact congrArg (fun x => NTree.mk (g (f d)) x) (updateChild_ext fun c => ih c)

theorem updateAlong_id : ∀ (p : List Nat) (t : NTree),
    updateAlong (fun d => d) t p = t := by
  intro p
  induction p with
  | nil =>
    intro t
    cases t
    rw [updateAlong]
  | cons m p ih =>
    intro t
    cases t with
    | mk d cs =>
      rw [updateAlong]
      rw [updateChild_ext fun c => ih c, updateChild_id]

/-- A fresh child list (Node::Node(prior)) is all-zero in visitingCount. -/
theorem allVisitingZero_fresh (ncs : List (Nat × Rat)) :
    ∀ mc ∈ ncs.map (fun mp => (mp.1, NTree.mk (NodeData.fresh mp.2) [])),
      AllVisitingZero mc.2 := by
  intro mc hmc
  rcases List.mem_map.mp hmc with ⟨mp, _, hmp⟩
  subst hmp
  exact AllVisitingZero.mk _ _ rfl (by simp)

/-- A completed simulation (selection increments, expansion, Backpropagate)
leaves every visitingCount where it started: the quiescent all-zero state is
preserved. -/
theorem allVisitingZero_simStep :
    ∀ (p : List Nat) (t : NTree) (ncs : List (Nat × Rat)) (v : Rat),
      AllVisitingZero t →
      AllVisitingZero (simStep (incVisitingAlong t p) p ncs v) := by
  intro p
  induction p with
  | nil =>
    intro t ncs v hz
    cases hz with
    | mk d cs hvz hmem =>
      rw [simStep, incVisitingAlong, updateAlong, expandLeafAt, backpropagateAlong]
      refine AllVisitingZero.mk _ _ ?_ (allVisitingZero_fresh ncs)
      simp [backpropUpdate, hvz]
  | cons m p ih =>
    intro t ncs v hz
    cases hz with
    | mk d cs hvz hmem =>
      rw [simStep, incVisitingAlong, updateAlong, expandLeafAt, backpropagateAlong,
        updateChild_comp, updateChild_comp]
      refine AllVisitingZero.mk _ _ ?_ ?_
      · simp [backpropUpdate, hvz]
      · refine updateChild_pred hmem ?_
        intro c hc
        exact ih c ncs (flipValue v) (hmem (m, c) (lookupChild_mem hc))

/-- Backpropagate alone (no expansion: a terminal-leaf revisit) also restores
the all-zero visitingCount state after the selection increments. -/
theorem allVisitingZero_backprop :
    ∀ (p : List Nat) (t : NTree) (v : Rat),
      AllVisitingZero t →
      AllVisitingZero (backpropagateAlong (incVisitingAlong t p) p v) := by
  intro p
  induction p with
  | nil =>
    intro t v hz
    cases hz with
    | mk d cs hvz hmem =>
      rw [incVisitingAlong, updateAlong, backpropagateAlong]
      exact AllVisitingZero.mk _ _ (by simp [backpropUpdate, hvz]) hmem
  | cons m p ih =>
    intro t v hz
    cases hz with
    | mk d cs hvz hmem =>
      rw [incVisitingAlong, updateAlong, backpropagateAlong, updateChild_comp]
      refine AllVisitingZero.mk _ _ (by simp [backpropUpdate, hvz]) ?_
      refine updateChild_pred hmem ?_
      intro c hc
      exact ih c (flipValue v) (hmem (m, c) (lookupChild_mem hc))

/-- C10: virtual visits are exactly balanced. Undoing the per-path
visitingCount increments of selection (the failed-selection cleanup loop)
restores the tree exactly; and a completed simulation - selection increments
followed by Backpropagate, with or without an expansion of the leaf - maps an
all-visitingCount-zero tree to an all-visitingCount-zero tree, so every
node's visitingCount is 0 at every quiescent point. -/
theorem virtualVisits_balanced_spec :
    (∀ (t : NTree) (p : List Nat), decVisitingAlong (incVisitingAlong t p) p = t)
    ∧ (∀ (p : List Nat) (t : NTree) (v : Rat), AllVisitingZero t →
        AllVisitingZero (backpropagateAlong (incVisitingAlong t p) p v))
    ∧ (∀ (p : List Nat) (t : NTree) (ncs : List (Nat × Rat)) (v : Rat), AllVisitingZero t →
        AllVisitingZero (simStep (incVisitingAlong t p) p ncs v)) := by
  refine ⟨?_, allVisitingZero_backprop, allVisitingZero_simStep⟩
  intro t p
  rw [decVisitingAlong, incVisitingAlong, updateAlong_comp]
  have h : (fun d => ({ { d with visitingCount := d.visitingCount + 1 } with
      visitingCount := { d with visitingCount := d.visitingCount + 1 }.visitingCount - 1 }
        : NodeData)) = (fun d => d) := by
    funext d
    cases d
    simp
  rw [h, updateAlong_id]

/-- Witness for C10: the all-zero quiescent state of the concrete
three-node tree survives a simulation through the path 4, 7. -/
theorem virtualVisits_balanced_spec_witness :
    AllVisitingZero balWitnessTree ∧
      AllVisitingZero (backpropagateAlong (incVisitingAlong balWitnessTree [4, 7]) [4, 7] (1/2)) :=
  have hz : AllVisitingZero balWitnessTree := by
    refine AllVisitingZero.mk _ _ rfl ?_
    intro mc hmc
    simp only [List.mem_singleton] at hmc
    subst hmc
    refine AllVisitingZero.mk _ _ rfl ?_
    intro mc2 hmc2
    simp only [List.mem_singleton] at hmc2
    subst hmc2
    exact AllVisitingZero.mk _ _ rfl (by simp)
  ⟨hz, virtualVisits_balanced_spec.2.1 [4, 7] balWitnessTree (1/2) hz⟩

theorem sumChildrenVC_fresh (ncs : List (Nat × Rat)) :
    sumChildrenVC (ncs.map fun mp => (mp.1, NTree.mk (NodeData.fresh mp.2) [])) = 0 := by
  induction ncs with
  | nil => rfl
  | cons hd tl ih =>
    have h0 : ∀ q : Rat, (NodeData.fresh q).visitCount = 0 := fun q => rfl
    simp [sumChildrenVC, ih, h0]

theorem bal_fresh (ncs : List (Nat × Rat)) :
    ∀ mc ∈ ncs.map (fun mp => (mp.1, NTree.mk (NodeData.fresh mp.2) [])),
      Bal false mc.2 := by
  intro mc hmc
  rcases List.mem_map.mp hmc with ⟨mp, _, hmp⟩
  subst hmp
  exact Bal.mk _ _ _ (Or.inl rfl) (by simp)

theorem lookupChild_ne_nil {cs : List (Nat × NTree)} {m : Nat} {c : NTree}
    (h : lookupChild cs m = some c) : cs ≠ [] := by
  intro hcs
  subst hcs
  simp [lookupChild] at h

/-- A completed simulation below the root preserves the non-root balance
invariant and adds exactly one visit at the subtree's root. -/
theorem bal_simStep_aux :
    ∀ (p : List Nat) (t : NTree) (ncs : List (Nat × Rat)) (v : Rat) (leafN : NTree),
      Bal false t → getNode t p = some leafN → leafN.children = [] →
      (ncs ≠ [] → leafN.data.visitCount = 0) →
      Bal false (backpropagateAlong (expandLeafAt t p ncs) p v) ∧
      (backpropagateAlong (expandLeafAt t p ncs) p v).data.visitCount =
        t.data.visitCount + 1 := by
  intro p
  induction p with
  | nil =>
    intro t ncs v leafN hbal hget hleaf hvc
    rw [getNode] at hget
    cases hget
    cases hbal with
    | mk _ d cs hb hmem =>
      simp only [NTree.children_mk] at hleaf
      subst hleaf
      rw [expandLeafAt, backpropagateAlong]
      refine ⟨Bal.mk _ _ _ ?_ (bal_fresh ncs), by simp [backpropUpdate]⟩
      cases hncs : ncs with
      | nil => exact Or.inl (by simp)
      | cons hd tl =>
        refine Or.inr ?_
        rw [sumChildrenVC_fresh]
        have h0 : d.visitCount = 0 := by
          simpa using hvc (by simp [hncs])
        simp [backpropUpdate, h0]
  | cons m p ih =>
    intro t ncs v leafN hbal hget hleaf hvc
    cases t with
    | mk d cs =>
      rw [getNode] at hget
      simp only [NTree.children_mk] at hget
      cases hl : lookupChild cs m with
      | none => rw [hl] at hget; cases hget
      | some c0 =>
        rw [hl] at hget
        cases hbal with
        | mk _ _ _ hb hmem =>
          have hcne : cs ≠ [] := lookupChild_ne_nil hl
          have hsum : d.visitCount = sumChildrenVC cs + 1 := by
            rcases hb with h | h
            · exact absurd h hcne
            · simpa using h
          have hc0 : Bal false c0 := hmem (m, c0) (lookupChild_mem hl)
          obtain ⟨hbal', hvc'⟩ := ih c0 ncs (flipValue v) leafN hc0 hget hleaf hvc
          rw [expandLeafAt, backpropagateAlong, updateChild_comp]
          constructor
          · refine Bal.mk _ _ _ (Or.inr ?_) ?_
            · rw [sumChildrenVC_updateChild _ hl, hvc']
              simp [backpropUpdate]
              omega
            · refine updateChild_pred hmem ?_
              intro c hc
              rw [hl] at hc
              cases hc
              exact hbal'
          · simp [backpropUpdate]

/-- C7: after ApplyMoveWithRootAndHistory the new root's visitCount equals the
sum of its children's visitCounts - the source sets it to 0 for a childless
(terminal) new root and otherwise decrements by exactly one, the single leaf
visit it received before expansion (first conjunct, the literal accounting).
Under the balance invariant Bal (root's visitCount = sum of children; every
other expanded node = 1 + sum of children), the move application yields a
tree whose new root satisfies the assert and the invariant again (second
conjunct); a completed simulation through any leaf - cache-hit or network
expansion both create zero-visit children and backpropagate one visit -
preserves the invariant (third conjunct); and the initial root expansion
outside any simulation (cache-hit root expansion included) establishes it
(fourth conjunct). -/
theorem applyMove_visitCount_invariant :
    (∀ (t : NTree) (m : Nat) (c : NTree), lookupChild t.children m = some c →
      applyMoveWithRootAndHistory t m =
        some (if c.children.isEmpty = true
          then NTree.mk { c.data with visitCount := 0 } c.children
          else NTree.mk { c.data with visitCount := c.data.visitCount - 1 } c.children))
    ∧ (∀ (t t' : NTree) (m : Nat), Bal true t → applyMoveWithRootAndHistory t m = some t' →
        t'.data.visitCount = sumChildrenVC t'.children ∧ Bal true t')
    ∧ (∀ (t : NTree) (p : List Nat) (ncs : List (Nat × Rat)) (v : Rat) (leafN : NTree),
        Bal true t → p ≠ [] → getNode t p = some leafN → leafN.children = [] →
        (ncs ≠ [] → leafN.data.visitCount = 0) →
        Bal true (simStep t p ncs v))
    ∧ (∀ (d : NodeData) (ncs : List (Nat × Rat)), d.visitCount = 0 →
        Bal true (expandLeafAt (NTree.mk d []) [] ncs)) := by
  refine ⟨?_, ?_, ?_, ?_⟩
  · intro t m c hlook
    cases c with
    | mk dc csc =>
      rw [applyMoveWithRootAndHistory, hlook, Option.map_some']
      simp only [NTree.children_mk, NTree.data_mk]
  · intro t t' m hbal happly
    cases hl : lookupChild t.children m with
    | none => rw [applyMoveWithRootAndHistory, hl] at happly; cases happly
    | some c =>
      cases c with
      | mk dc csc =>
        have h1 : applyMoveWithRootAndHistory t m =
            some (if csc.isEmpty = true
              then NTree.mk { dc with visitCount := 0 } csc
              else NTree.mk { dc with visitCount := dc.visitCount - 1 } csc) := by
          rw [applyMoveWithRootAndHistory, hl, Option.map_some']
        rw [h1] at happly
        cases happly
        have hmemc : Bal false (NTree.mk dc csc) := by
          cases hbal with
          | mk _ _ _ _ hmem => exact hmem (m, NTree.mk dc csc) (lookupChild_mem hl)
        cases hmemc with
        | mk _ _ _ hbc hmemcs =>
          cases hise : csc.isEmpty with
          | true =>
            have hnil : csc = [] := List.isEmpty_iff.mp hise
            subst hnil
            simp only [List.isEmpty_nil, if_true]
            exact ⟨rfl, Bal.mk _ _ _ (Or.inl rfl) (by simp)⟩
          | false =>
            have hnonnil : csc ≠ [] := by
              intro h
              subst h
              simp at hise
            simp only [Bool.false_eq_true, if_false]
            have hsum : dc.visitCount = sumChildrenVC csc + 1 := by
              rcases hbc with h | h
              · exact absurd h hnonnil
              · simpa using h
            refine ⟨by simp [hsum], Bal.mk _ _ _ (Or.inr (by simp [hsum])) hmemcs⟩
  · intro t p ncs v leafN hbal hpne hget hleaf hvc
    cases t with
    | mk d cs =>
      cases p with
      | nil => exact absurd rfl hpne
      | cons m p' =>
        rw [getNode] at hget
        simp only [NTree.children_mk] at hget
        cases hl : lookupChild cs m with
        | none => rw [hl] at hget; cases hget
        | some c0 =>
          rw [hl] at hget
          cases hbal with
          | mk _ _ _ hb hmem =>
            have hcne : cs ≠ [] := lookupChild_ne_nil hl
            have hsum : d.visitCount = sumChildrenVC cs := by
              rcases hb with h | h
              · exact absurd h hcne
              · simpa using h
            have hc0 : Bal false c0 := hmem (m, c0) (lookupChild_mem hl)
            obtain ⟨hbal', hvc'⟩ := bal_simStep_aux p' c0 ncs (flipValue v) leafN hc0 hget hleaf hvc
            rw [simStep, expandLeafAt, backpropagateAlong, updateChild_comp]
            refine Bal.mk _ _ _ (Or.inr ?_) ?_
            · rw [sumChildrenVC_updateChild _ hl, hvc']
              simp [backpropUpdate, hsum]
              omega
            · refine updateChild_pred hmem ?_
              intro c hc
              rw [hl] at hc
              cases hc
              exact hbal'
  · intro d ncs h0
    rw [expandLeafAt]
    refine Bal.mk _ _ _ ?_ (bal_fresh ncs)
    cases hncs : ncs with
    | nil => exact Or.inl (by simp)
    | cons hd tl =>
      refine Or.inr ?_
      rw [sumChildrenVC_fresh]
      simp [h0]

/-- Witness for C7: applying move 4 to the balanced three-node tree gives a
new root with one visit, equal to the sum of its children's visits. -/
theorem applyMove_visitCount_invariant_witness :
    applyMoveWithRootAndHistory balWitnessTree 4 =
      some (NTree.mk { NodeData.fresh (1/2) with visitCount := 1 }
        [(7, NTree.mk { NodeData.fresh 1 with visitCount := 1 } [])]) ∧
    ((NTree.mk { NodeData.fresh (1/2) with visitCount := 1 }
        [(7, NTree.mk { NodeData.fresh 1 with visitCount := 1 } [])]).data.visitCount =
      sumChildrenVC (NTree.mk { NodeData.fresh (1/2) with visitCount := 1 }
        [(7, NTree.mk { NodeData.fresh 1 with visitCount := 1 } [])]).children ∧
      Bal true (NTree.mk { NodeData.fresh (1/2) with visitCount := 1 }
        [(7, NTree.mk { NodeData.fresh 1 with visitCount := 1 } [])])) :=
  have hleaf : Bal false (NTree.mk { NodeData.fresh 1 with visitCount := 1 } []) :=
    Bal.mk _ _ _ (Or.inl rfl) (by simp)
  have hchild : Bal false (NTree.mk { NodeData.fresh (1/2) with visitCount := 2 }
      [(7, NTree.mk { NodeData.fresh 1 with visitCount := 1 } [])]) := by
    refine Bal.mk _ _ _ (Or.inr (by decide)) ?_
    intro mc hmc
    simp only [List.mem_singleton] at hmc
    subst hmc
    exact hleaf
  have hb : Bal true balWitnessTree := by
    refine Bal.mk _ _ _ (Or.inr (by decide)) ?_
    intro mc hmc
    simp only [List.mem_singleton] at hmc
    subst hmc
    exact hchild
  ⟨rfl, applyMove_visitCount_invariant.2.1 balWitnessTree
    (NTree.mk { NodeData.fresh (1/2) with visitCount := 1 }
      [(7, NTree.mk { NodeData.fresh 1 with visitCount := 1 } [])]) 4 hb rfl⟩
